import Mathlib

/-!
Verification development for the dense statevector simulator core
(`qubitvector.hpp`).  The C++ class `QV::QubitVector` is shallowly embedded:
the amplitude buffer `data_` becomes a `List CC` of exact complex numbers
with rational components (complex doubles are modelled exactly; all the
operations the claims exercise are `+`, `-`, `*` and copies, which are exact
term-for-term), machine integers become `Nat` (no overflow is reachable at
the sizes involved since `data_size_ = 2^num_qubits` and all indices stay
below it), `std::vector` becomes `List`, and a function that can `throw`
returns `Except String`.  `BITS[n]` is `2^n` and `MASKS[n]` is `2^n - 1`.
Functions are modelled as compiled without the `DEBUG` flag; the two places
where a claim is about a `DEBUG`-gated check (`check_checkpoint` callers and
`operator[]`) carry an explicit `debug : Bool` parameter or model the check
itself.
-/

/-- Complex number with exact rational components, modelling `complex_t`
(`std::complex<double>`) for the purposes of the claims. -/
structure CC where
  re : ℚ
  im : ℚ
deriving DecidableEq, Repr

instance : Inhabited CC := ⟨⟨0, 0⟩⟩

instance : Zero CC := ⟨⟨0, 0⟩⟩

instance : One CC := ⟨⟨1, 0⟩⟩

instance : Add CC := ⟨fun a b => ⟨a.re + b.re, a.im + b.im⟩⟩

instance : Neg CC := ⟨fun a => ⟨-a.re, -a.im⟩⟩

instance : Mul CC := ⟨fun a b => ⟨a.re * b.re - a.im * b.im, a.re * b.im + a.im * b.re⟩⟩

/-- Complex conjugate, modelling `std::conj`. -/
def CC.conj (a : CC) : CC := ⟨a.re, -a.im⟩

/-- The real part of `v * conj v`, i.e. `|v|^2`, as computed by
`std::real(v * std::conj(v))`. -/
def CC.normSq (a : CC) : ℚ := (a * a.conj).re

/-- Insertion of an element into a sorted list, helper for `sortAsc`. -/
def insertAsc (x : ℕ) : List ℕ → List ℕ
  | [] => [x]
  | y :: ys => if x ≤ y then x :: y :: ys else y :: insertAsc x ys

/-- Ascending insertion sort on qubit lists, modelling
`std::sort(qubits_sorted.begin(), qubits_sorted.end())`. -/
def sortAsc (l : List ℕ) : List ℕ := l.foldr insertAsc []

/-- Embedding of `QubitVector::index0(qubits_sorted, k)`: for each sorted
qubit `q` the running value keeps its low `q` bits (`lowbits = retval &
MASKS[q]`), shifts the rest up one position (`retval >>= q; retval <<= q+1`)
and restores the low bits (`retval |= lowbits`). -/
def index0 (qubits_sorted : List ℕ) (k : ℕ) : ℕ :=
  qubits_sorted.foldl (fun retval q => ((retval >>> q) <<< (q + 1)) ||| (retval &&& (2 ^ q - 1))) k

/-- Spec-side formulation of inserting a single 0 bit into `x` at bit
position `q`: the bits above `q` move up one place and the bits below stay. -/
def insertZeroBit (x : ℕ) (q : ℕ) : ℕ := 2 ^ (q + 1) * (x / 2 ^ q) + x % 2 ^ q

/-- Spec-side `index0`: the integer formed by inserting a 0 bit into `k` at
each position of `Q` in ascending order (the claim quantifies over sorted
`Q`, for which the list order is the ascending order). -/
def specIndex0 (Q : List ℕ) (k : ℕ) : ℕ := Q.foldl insertZeroBit k

/-- Spec-side bit mask for entry `i` of the `indexes` table: the OR of
`BITS[qu[j]]` over every `j` whose bit is set in `i`, i.e. the bits
`qu[j]` that the claim says are set to 1 in `T[i]`. -/
def orMask : List ℕ → ℕ → ℕ
  | [], _ => 0
  | q :: rest, i => (if i % 2 = 1 then 2 ^ q else 0) ||| orMask rest (i / 2)

/-- Core loop of `QubitVector::indexes`: for each qubit `qs[i]` (with
`n = BITS[i]` the number of entries already filled and `bit = BITS[qs[i]]`)
the entries `ret[n + j] = ret[j] | bit` are appended, doubling the filled
prefix.  The list `acc` is the filled prefix. -/
def indexesList : List ℕ → List ℕ → List ℕ
  | [], acc => acc
  | q :: rest, acc => indexesList rest (acc ++ acc.map (· ||| 2 ^ q))

/-- Embedding of `QubitVector::indexes(qubits, qubits_sorted, k)`: the table
starts from `ret[0] = index0(qubits_sorted, k)` and is doubled once per
qubit of `qubits`. -/
def indexes (qubits qubits_sorted : List ℕ) (k : ℕ) : List ℕ :=
  indexesList qubits [index0 qubits_sorted k]

/-- Block iterator, modelling the `apply_lambda(func, qubits)` /
`apply_lambda(func, qubits, params)` templates: `k` runs over
`data_size_ >> qubits.size()` blocks, the index table `inds = indexes(qubits,
qubits_sorted, k)` is built with `qubits_sorted = std::sort(qubits)`, and the
kernel is invoked per block (parallelism is irrelevant to the value since
blocks are disjoint; the fold runs them in `k` order). -/
def applyLambda (nq : ℕ) (qubits : List ℕ) (f : List ℕ → List CC → List CC)
    (st : List CC) : List CC :=
  (List.range (2 ^ nq >>> qubits.length)).foldl
    (fun s k => f (indexes qubits (sortAsc qubits) k) s) st

/-- Embedding of the single-qubit `apply_diagonal_matrix(qubit, diag)`
(lines 1662-1764), with every literal-equality fast path of the source,
including the source's use of `inds[1]` in the `[[±i,0],[0,1]]` branches
and the dead `diag[0] == 0` test inside the `diag[0] == 1` branch. -/
def apply_diagonal_matrix1 (nq : ℕ) (qubit : ℕ) (diag : List CC) (st : List CC) : List CC :=
  let d0 := diag.get! 0
  let d1 := diag.get! 1
  if d0 = 1 then
    if d1 = 1 then st
    else if d1 = ⟨0, -1⟩ then
      applyLambda nq [qubit] (fun inds s =>
        let k := inds.get! 1
        s.set k ⟨(s.get! k).im, -(s.get! k).re⟩) st
    else if d1 = ⟨0, 1⟩ then
      applyLambda nq [qubit] (fun inds s =>
        let k := inds.get! 1
        s.set k ⟨-(s.get! k).im, (s.get! k).re⟩) st
    else if d0 = 0 then
      applyLambda nq [qubit] (fun inds s => s.set (inds.get! 1) 0) st
    else
      applyLambda nq [qubit] (fun inds s =>
        let k := inds.get! 1
        s.set k (s.get! k * d1)) st
  else if d1 = 1 then
    if d0 = ⟨0, -1⟩ then
      applyLambda nq [qubit] (fun inds s =>
        let k := inds.get! 1
        s.set k ⟨(s.get! k).im, -(s.get! k).re⟩) st
    else if d0 = ⟨0, 1⟩ then
      applyLambda nq [qubit] (fun inds s =>
        let k := inds.get! 1
        s.set k ⟨-(s.get! k).im, (s.get! k).re⟩) st
    else if d0 = 0 then
      applyLambda nq [qubit] (fun inds s => s.set (inds.get! 0) 0) st
    else
      applyLambda nq [qubit] (fun inds s =>
        let k := inds.get! 0
        s.set k (s.get! k * d0)) st
  else
    applyLambda nq [qubit] (fun inds s =>
      let s := s.set (inds.get! 0) (s.get! (inds.get! 0) * d0)
      s.set (inds.get! 1) (s.get! (inds.get! 1) * d1)) st

/-- Embedding of the single-qubit `apply_matrix(qubit, mat)` (lines
1638-1660): diagonal fast path on `mat[1] == 0 && mat[2] == 0`, otherwise
the dense 2x2 pair update at `pos0 = inds[0]`, `pos1 = inds[1]`
(column-major `mat`). -/
def apply_matrix1 (nq : ℕ) (qubit : ℕ) (mat : List CC) (st : List CC) : List CC :=
  if mat.get! 1 = 0 ∧ mat.get! 2 = 0 then
    apply_diagonal_matrix1 nq qubit [mat.get! 0, mat.get! 3] st
  else
    applyLambda nq [qubit] (fun inds s =>
      let pos0 := inds.get! 0
      let pos1 := inds.get! 1
      let cache := s.get! pos0
      let s := s.set pos0 (mat.get! 0 * s.get! pos0 + mat.get! 2 * s.get! pos1)
      s.set pos1 (mat.get! 1 * cache + mat.get! 3 * s.get! pos1)) st

/-- Embedding of the N-qubit `apply_matrix(qubits, mat)` (lines 1086-1170):
`N = 1` delegates to the single-qubit version; all other cases (the
specialized 2, 3, 4 and the generic default have textually identical bodies
up to `DIM`) cache the `DIM = 2^N` amplitudes of the block, zero them, and
accumulate `mat[i + DIM*j] * cache[j]` into `data[inds[i]]`. -/
def apply_matrix (nq : ℕ) (qubits : List ℕ) (mat : List CC) (st : List CC) : List CC :=
  if qubits.length = 1 then apply_matrix1 nq (qubits.get! 0) mat st
  else
    let DIM := 2 ^ qubits.length
    applyLambda nq qubits (fun inds s =>
      let cache := (List.range DIM).map (fun i => s.get! (inds.get! i))
      let s := (List.range DIM).foldl (fun s i => s.set (inds.get! i) 0) s
      (List.range DIM).foldl (fun s i =>
        (List.range DIM).foldl (fun s j =>
          s.set (inds.get! i)
            (s.get! (inds.get! i) + mat.get! (i + DIM * j) * cache.get! j)) s) s) st

/-- Embedding of `apply_mcx(qubits)` (lines 1371-1410): swap the pair at
`inds[pos0]`, `inds[pos1]` with `pos0 = MASKS[N-1]`, `pos1 = MASKS[N]`. -/
def apply_mcx (nq : ℕ) (qubits : List ℕ) (st : List CC) : List CC :=
  let N := qubits.length
  let pos0 := 2 ^ (N - 1) - 1
  let pos1 := 2 ^ N - 1
  applyLambda nq qubits (fun inds s =>
    let a := s.get! (inds.get! pos0)
    let b := s.get! (inds.get! pos1)
    (s.set (inds.get! pos0) b).set (inds.get! pos1) a) st

/-- Embedding of `apply_mcu(qubits, mat)` (lines 1538-1632).  Note the
source's `N >= 2` lambdas read and write `data_[pos0]` and `data_[pos1]`
directly with the ambient constants `pos0 = MASKS[N-1]`, `pos1 = MASKS[N]`,
ignoring the per-block index table `inds`, both in the diagonal fast path
and in the dense path; this is embedded as written. -/
def apply_mcu (nq : ℕ) (qubits : List ℕ) (mat : List CC) (st : List CC) : List CC :=
  let N := qubits.length
  let pos0 := 2 ^ (N - 1) - 1
  let pos1 := 2 ^ N - 1
  if mat.get! 1 = 0 ∧ mat.get! 2 = 0 then
    if N = 1 then apply_diagonal_matrix1 nq (qubits.get! 0) [mat.get! 0, mat.get! 3] st
    else
      applyLambda nq qubits (fun _inds s =>
        let s := s.set pos0 (mat.get! 0 * s.get! pos0)
        s.set pos1 (mat.get! 3 * s.get! pos1)) st
  else
    if N = 1 then apply_matrix1 nq (qubits.get! 0) mat st
    else
      applyLambda nq qubits (fun _inds s =>
        let cache := s.get! pos0
        let s := s.set pos0 (mat.get! 0 * s.get! pos0 + mat.get! 2 * s.get! pos1)
        s.set pos1 (mat.get! 1 * cache + mat.get! 3 * s.get! pos1)) st

/-- Modelled from the spec (4.C mcu and the design note declaring the
block-relative positions the correct intent) and from the claim: identical
to `apply_mcu` except that the `N >= 2` kernels act on the table entries
`inds[pos0]` and `inds[pos1]` of each block. -/
def apply_mcu_spec (nq : ℕ) (qubits : List ℕ) (mat : List CC) (st : List CC) : List CC :=
  let N := qubits.length
  let pos0 := 2 ^ (N - 1) - 1
  let pos1 := 2 ^ N - 1
  if mat.get! 1 = 0 ∧ mat.get! 2 = 0 then
    if N = 1 then apply_diagonal_matrix1 nq (qubits.get! 0) [mat.get! 0, mat.get! 3] st
    else
      applyLambda nq qubits (fun inds s =>
        let s := s.set (inds.get! pos0) (mat.get! 0 * s.get! (inds.get! pos0))
        s.set (inds.get! pos1) (mat.get! 3 * s.get! (inds.get! pos1))) st
  else
    if N = 1 then apply_matrix1 nq (qubits.get! 0) mat st
    else
      applyLambda nq qubits (fun inds s =>
        let cache := s.get! (inds.get! pos0)
        let s := s.set (inds.get! pos0)
          (mat.get! 0 * s.get! (inds.get! pos0) + mat.get! 2 * s.get! (inds.get! pos1))
        s.set (inds.get! pos1) (mat.get! 1 * cache + mat.get! 3 * s.get! (inds.get! pos1))) st

/-- Embedding of `swap_cols_and_rows(idx1, idx2, mat, dim)` (lines
1769-1794): for every row index `first` with bit `idx1` set and bit `idx2`
clear, with `second = (first ^ mask1) | mask2`, swap rows `first`/`second`
and then columns `first`/`second` of the column-major `dim x dim` matrix. -/
def swap_cols_and_rows (idx1 idx2 : ℕ) (mat : List CC) (dim : ℕ) : List CC :=
  let mask1 := 2 ^ idx1
  let mask2 := 2 ^ idx2
  (List.range dim).foldl (fun m first =>
    if first &&& mask1 ≠ 0 ∧ first &&& mask2 = 0 then
      let second := (first ^^^ mask1) ||| mask2
      let m := (List.range dim).foldl (fun m i =>
        let cache := m.get! (first * dim + i)
        let m := m.set (first * dim + i) (m.get! (second * dim + i))
        m.set (second * dim + i) cache) m
      (List.range dim).foldl (fun m i =>
        let cache := m.get! (i * dim + first)
        let m := m.set (i * dim + first) (m.get! (i * dim + second))
        m.set (i * dim + second) cache) m
    else m) mat

/-- First index at which the two lists differ, modelling the `for (from = 0;
...)` scan of `sort_matrix`. -/
def firstMismatch : List ℕ → List ℕ → ℕ
  | x :: xs, y :: ys => if x = y then firstMismatch xs ys + 1 else 0
  | _, _ => 0

/-- First position `t` with `start <= t < len` and `sorted[t] = v`, or `len`
when none exists, modelling the `for (to = from + 1; ...)` scan of
`sort_matrix`. -/
def findSortedPos (v : ℕ) (sorted : List ℕ) (start len : ℕ) : ℕ :=
  (((List.range len).filter (fun t => decide (start ≤ t) && (sorted.get! t == v))).headD len)

/-- Fueled embedding of the `while (current != sorted)` loop of
`sort_matrix` (lines 1796-1825).  Each iteration finds the first mismatch
`from`, the position `to > from` of `current[from]` in `sorted`, throws if
there is none, and otherwise conjugates the matrix by
`swap_cols_and_rows(from, to)` and swaps `current[from]` with
`current[to]`.  For distinct entries each iteration newly fixes position
`to`, so `len*len + 1` fuel is sufficient for every run the source
terminates on. -/
def sortMatrixLoop (sorted : List ℕ) (dim : ℕ) :
    ℕ → List ℕ → List CC → Except String (List CC)
  | 0, current, ret =>
    if current = sorted then .ok ret else .error "sort_matrix fuel exhausted"
  | fuel + 1, current, ret =>
    if current = sorted then .ok ret
    else
      let i1 := firstMismatch current sorted
      let i2 := findSortedPos (current.get! i1) sorted (i1 + 1) current.length
      if i2 = current.length then
        .error "QubitVector::sort_matrix we should not reach here"
      else
        sortMatrixLoop sorted dim fuel
          ((current.set i1 (current.get! i2)).set i2 (current.get! i1))
          (swap_cols_and_rows i1 i2 ret dim)

/-- Embedding of `sort_matrix(src, sorted, mat)` with `DIM = BITS[N]`. -/
def sort_matrix (src sorted : List ℕ) (mat : List CC) : Except String (List CC) :=
  sortMatrixLoop sorted (2 ^ src.length) (src.length * src.length + 1) src mat

/-- Embedding of `expand_matrix(src_qubits, dst_sorted_qubits, vmat)` (lines
1827-1910): lift a 1- or 2-qubit column-major matrix to the qubit set
`dst_sorted_qubits`, throwing on any other source size.  The 2-qubit case
first conjugates `vmat` into sorted source order, then places the 4x4
block at deltas computed from the positions of the UNSORTED `src_qubits[0]`
and `src_qubits[1]` in the destination list, exactly as the source does. -/
def expand_matrix (src_qubits dst_sorted_qubits : List ℕ) (vmat : List CC) :
    Except String (List CC) :=
  let dst_dim := 2 ^ dst_sorted_qubits.length
  let src_dim := 2 ^ src_qubits.length
  if src_qubits.length = 1 then
    let index := dst_sorted_qubits.indexOf (src_qubits.get! 0)
    let delta := 2 ^ index
    let fill := fun (p : List CC × List Bool) (i : ℕ) =>
      if p.2.get! i then p
      else
        let u := p.1
        let u := u.set (i + i * dst_dim) (vmat.get! 0)
        let u := u.set (i + (i + delta) * dst_dim) (vmat.get! (0 + 1 * src_dim))
        let u := u.set ((i + delta) + i * dst_dim) (vmat.get! 1)
        let u := u.set ((i + delta) + (i + delta) * dst_dim) (vmat.get! (1 + 1 * src_dim))
        (u, (p.2.set i true).set (i + delta) true)
    .ok ((List.range dst_dim).foldl fill
      (List.replicate (dst_dim * dst_dim) 0, List.replicate dst_dim false)).1
  else if src_qubits.length = 2 then do
    let sorted_src_qubits := sortAsc src_qubits
    let sorted_vmat ← sort_matrix src_qubits sorted_src_qubits vmat
    let low := dst_sorted_qubits.indexOf (src_qubits.get! 0)
    let high := dst_sorted_qubits.indexOf (src_qubits.get! 1)
    let low_delta := 2 ^ low
    let high_delta := 2 ^ high
    let offs := [0, low_delta, high_delta, low_delta + high_delta]
    let fill := fun (p : List CC × List Bool) (i : ℕ) =>
      if p.2.get! i then p
      else
        let u := (List.range 4).foldl (fun u r =>
          (List.range 4).foldl (fun u c =>
            u.set ((i + offs.get! r) + (i + offs.get! c) * dst_dim)
              (sorted_vmat.get! (r + c * src_dim))) u) p.1
        let filled := (((p.2.set i true).set (i + low_delta) true).set
          (i + high_delta) true).set (i + low_delta + high_delta) true
        (u, filled)
    .ok ((List.range dst_dim).foldl fill
      (List.replicate (dst_dim * dst_dim) 0, List.replicate dst_dim false)).1
  else
    .error ("Fusion::illegal qubit number:" ++ toString src_qubits.length)

/-- The qubit-collection loop of `apply_matrix_sequence`: every qubit of
every register, first occurrence order, no duplicates. -/
def collectQubits (regs : List (List ℕ)) : List ℕ :=
  regs.foldl (fun acc r => r.foldl (fun acc q => if q ∈ acc then acc else acc ++ [q]) acc) []

/-- Embedding of `apply_matrix_sequence(regs, mats)` (lines 1172-1233):
return unchanged on an empty matrix list; fall back to sequential
`apply_matrix` if any register has more than 2 qubits; otherwise collect
and sort the union of the qubits, `expand_matrix` every gate to it, form
the product `U = M_{L-1} ... M_1 M_0` with the triple loop, and apply `U`
once. -/
def apply_matrix_sequence (nq : ℕ) (regs : List (List ℕ)) (mats : List (List CC))
    (st : List CC) : Except String (List CC) :=
  if mats.length = 0 then .ok st
  else if ¬ (regs.all fun r => decide (r.length ≤ 2)) then
    .ok ((List.range regs.length).foldl
      (fun s i => apply_matrix nq (regs.get! i) (mats.get! i) s) st)
  else do
    let sorted_qubits := sortAsc (collectQubits regs)
    let sorted_mats ← (List.range regs.length).mapM
      (fun i => expand_matrix (regs.get! i) sorted_qubits (mats.get! i))
    let dim := 2 ^ sorted_qubits.length
    let U := (List.range' 1 (sorted_mats.length - 1)).foldl (fun U m =>
      let u := sorted_mats.get! m
      (List.range dim).foldl (fun t i =>
        (List.range dim).foldl (fun t j =>
          (List.range dim).foldl (fun t k =>
            t.set (i + j * dim)
              (t.get! (i + j * dim) + u.get! (i + k * dim) * U.get! (k + j * dim))) t) t)
        (List.replicate (dim * dim) 0)) (sorted_mats.get! 0)
    .ok (apply_matrix nq sorted_qubits U st)

/-- Decidable equality for `Except` results, for concrete evaluation. -/
instance {e a : Type} [DecidableEq e] [DecidableEq a] : DecidableEq (Except e a) := fun x y =>
  match x, y with
  | .error u, .error v =>
    if h : u = v then isTrue (by rw [h]) else isFalse (by intro hh; cases hh; exact h rfl)
  | .ok u, .ok v =>
    if h : u = v then isTrue (by rw [h]) else isFalse (by intro hh; cases hh; exact h rfl)
  | .error _, .ok _ => isFalse (by intro hh; cases hh)
  | .ok _, .error _ => isFalse (by intro hh; cases hh)

/-- Cumulative probability `sum of real(conj(a[i]) * a[i])` over `i < m`,
the running value `p` of the `sample_measure` walk after visiting the first
`m` amplitudes. -/
def pref (st : List CC) (m : ℕ) : ℚ :=
  ((List.range m).map (fun i => ((st.get! i).conj * st.get! i).re)).sum

/-- Embedding of the per-shot walk of `sample_measure` (`for (sample = 0;
sample < END - 1; ++sample) { p += ...; if (rnd < p) break; }`), fueled by
the number of remaining loop iterations `END - 1 - sample`. -/
def sampleLoop (st : List CC) (rnd : ℚ) : ℚ → ℕ → ℕ → ℕ
  | _, sample, 0 => sample
  | p, sample, fuel + 1 =>
    let p2 := p + ((st.get! sample).conj * st.get! sample).re
    if rnd < p2 then sample else sampleLoop st rnd p2 (sample + 1) fuel

/-- Embedding of the coarse-table pass of the large-state regime of
`sample_measure`: `idxs[i]` is the probability mass of the `i`-th block of
`loop` amplitudes starting at `base = loop * i` (the source indexes with
`base | j`, which equals `base + j` there). -/
def sampleIdxs (st : List CC) (indexEnd loop : ℕ) : List ℚ :=
  (List.range indexEnd).map (fun i =>
    (List.range loop).foldl
      (fun total j => total + ((st.get! (loop * i ||| j)).conj * st.get! (loop * i ||| j)).re) 0)

/-- Embedding of the coarse descent of the large-state regime: walk the
block-mass table until `rnd < p + idxs[j]`, accumulating `p` and advancing
`sample` by `loop` per skipped block; returns the final `(p, sample)`. -/
def coarseLoop (rnd : ℚ) (loop : ℕ) : List ℚ → ℚ → ℕ → ℚ × ℕ
  | [], p, sample => (p, sample)
  | x :: rest, p, sample =>
    if rnd < p + x then (p, sample) else coarseLoop rnd loop rest (p + x) (sample + loop)

/-- Embedding of `sample_measure(rnds)` (lines 2221-2297): the small-state
regime (`END < INDEX_END`) walks the amplitudes per shot; the large-state
regime first builds the coarse table, descends it, then walks the located
block.  Shots are independent and produced in input order (`List.map`). -/
def sample_measure (nq idxSize : ℕ) (st : List CC) (rnds : List ℚ) : List ℕ :=
  let E := 2 ^ nq
  let indexEnd := 2 ^ idxSize
  if E < indexEnd then
    rnds.map (fun rnd => sampleLoop st rnd 0 0 (E - 1))
  else
    let loop := E >>> idxSize
    let idxs := sampleIdxs st indexEnd loop
    rnds.map (fun rnd =>
      let ps := coarseLoop rnd loop idxs 0 0
      sampleLoop st rnd ps.1 ps.2 (E - 1 - ps.2))

/-- Spec-side outcome of one shot: the smallest `j` in `[0, E - 1)` with
`rnd < pref st (j + 1)` (the claim's sum over `i <= j` of `|a[i]|^2`), and
`E - 1` when no such `j` exists. -/
def specSampleOutcome (st : List CC) (E : ℕ) (rnd : ℚ) : ℕ :=
  if h : ∃ j, j < E - 1 ∧ rnd < pref st (j + 1) then Nat.find h else E - 1

/-- Embedding of the `QubitVector` object state: the amplitude buffer
`data_`, the optional checkpoint buffer `checkpoint_` (null pointer =
`none`), and the configuration fields with their source defaults
(`omp_threads_ = 1`, `omp_threshold_ = 14`, `sample_measure_index_size_ =
10`, `json_chop_threshold_ = 0`).  `data_size_` is the derived
`BITS[num_qubits_] = 2^num_qubits`. -/
structure QV where
  num_qubits : ℕ
  data : List CC
  checkpoint_ : Option (List CC)
  omp_threads : ℕ
  omp_threshold : ℕ
  sample_measure_index_size : ℤ
  json_chop_threshold : ℚ
deriving DecidableEq, Repr

/-- The buffer length `data_size_ = BITS[num_qubits_]`. -/
def QV.dataSize (qv : QV) : ℕ := 2 ^ qv.num_qubits

/-- The message thrown by `check_checkpoint()`. -/
def checkpointErrMsg : String :=
  "QubitVector: checkpoint must exist for inner_product() or revert()"

/-- Embedding of `checkpoint()` (lines 806-815): allocate the checkpoint
buffer if absent and copy every entry of the state buffer into it; the
result is a checkpoint buffer equal to the state buffer. -/
def checkpointOp (qv : QV) : QV := { qv with checkpoint_ := some qv.data }

/-- Result of `revert`: normal return, a thrown `runtime_error` carrying
the untouched object (the check precedes every write), or the undefined
behaviour of dereferencing the absent checkpoint buffer in a build without
`DEBUG`. -/
inductive RevertResult
  | ok (qv : QV)
  | err (msg : String) (qv : QV)
  | crash
deriving DecidableEq, Repr

/-- Result of `inner_product`: value, thrown error, or null dereference. -/
inductive ValResult
  | ok (v : CC)
  | err (msg : String)
  | crash
deriving DecidableEq, Repr

/-- Embedding of `revert(keep)` (lines 818-834): with `DEBUG`,
`check_checkpoint()` throws on entry when `checkpoint_` is null; without
`DEBUG` the copy loop dereferences the null checkpoint pointer (modelled
as `crash`).  Otherwise every entry of the checkpoint buffer is copied
back into the state buffer (both have length `data_size_`, the checkpoint
buffer only ever being filled by `checkpoint()`), and the checkpoint
buffer is freed unless `keep`. -/
def revertOp (debug : Bool) (keep : Bool) (qv : QV) : RevertResult :=
  match qv.checkpoint_ with
  | none => if debug then .err checkpointErrMsg qv else .crash
  | some cp => .ok { qv with data := cp, checkpoint_ := if keep then some cp else none }

/-- Embedding of `inner_product()` (lines 836-849): with `DEBUG` the
missing-checkpoint check throws on entry; without `DEBUG` a null
checkpoint is dereferenced; otherwise reduce `data_[k] * conj(checkpoint_[k])`
over `k < data_size_` into separate real and imaginary accumulators. -/
def inner_product (debug : Bool) (qv : QV) : ValResult :=
  match qv.checkpoint_ with
  | none => if debug then .err checkpointErrMsg else .crash
  | some cp =>
    .ok ⟨((List.range qv.dataSize).map (fun k => (qv.data.get! k * (cp.get! k).conj).re)).sum,
         ((List.range qv.dataSize).map (fun k => (qv.data.get! k * (cp.get! k).conj).im)).sum⟩

/-- A gate application drawn from the embedded kernels; every one touches
only the state buffer. -/
inductive Gate
  | matrix (qubits : List ℕ) (mat : List CC)
  | mcu (qubits : List ℕ) (mat : List CC)
  | mcx (qubits : List ℕ)
  | diag1 (qubit : ℕ) (diag : List CC)

/-- Apply one gate to the amplitude buffer. -/
def applyGate (nq : ℕ) (g : Gate) (d : List CC) : List CC :=
  match g with
  | .matrix qs m => apply_matrix nq qs m d
  | .mcu qs m => apply_mcu nq qs m d
  | .mcx qs => apply_mcx nq qs d
  | .diag1 q dg => apply_diagonal_matrix1 nq q dg d

/-- Apply a sequence of gates to the object: gate kernels write only
`data_`, never the checkpoint buffer. -/
def applyGates (gs : List Gate) (qv : QV) : QV :=
  { qv with data := gs.foldl (fun d g => applyGate qv.num_qubits g d) qv.data }

/-- Embedding of `json()` (lines 559-581): a `data_size_`-entry array of
`[real, imag]` pairs; with a positive chop threshold a component is copied
only when its absolute value exceeds the threshold and otherwise keeps the
initial 0. -/
def jsonOut (qv : QV) : List (ℚ × ℚ) :=
  if qv.json_chop_threshold > 0 then
    (List.range (2 ^ qv.num_qubits)).map (fun j =>
      ((if |(qv.data.get! j).re| > qv.json_chop_threshold then (qv.data.get! j).re else 0),
       (if |(qv.data.get! j).im| > qv.json_chop_threshold then (qv.data.get! j).im else 0)))
  else
    (List.range (2 ^ qv.num_qubits)).map (fun j => ((qv.data.get! j).re, (qv.data.get! j).im))

/-- Embedding of the `DEBUG` bounds check of `operator[]` (lines 660-684):
the error is raised exactly when `element > data_size_`. -/
def elementAccessCheck (qv : QV) (element : ℕ) : Bool := decide (2 ^ qv.num_qubits < element)

/-- Embedding of `set_omp_threads(int n)` (lines 899-903): store only for
`n > 0` (the positive `int` fits the `uint_t` field unchanged). -/
def set_omp_threads (qv : QV) (n : ℤ) : QV :=
  if n > 0 then { qv with omp_threads := n.toNat } else qv

/-- Embedding of `set_omp_threshold(int n)` (lines 905-909). -/
def set_omp_threshold (qv : QV) (n : ℤ) : QV :=
  if n > 0 then { qv with omp_threshold := n.toNat } else qv

theorem index0_step (x q : ℕ) :
    ((x >>> q) <<< (q + 1)) ||| (x &&& (2 ^ q - 1)) = insertZeroBit x q := by
  rw [insertZeroBit, Nat.and_pow_two_sub_one_eq_mod, Nat.shiftLeft_eq, Nat.shiftRight_eq_div_pow,
    Nat.mul_comm, Nat.mul_add_lt_is_or]
  exact lt_of_lt_of_le (Nat.mod_lt x (Nat.pos_pow_of_pos q (by norm_num)))
    (Nat.pow_le_pow_right (by norm_num) (Nat.le_succ q))

theorem index0_eq_specIndex0 (Q : List ℕ) (k : ℕ) : index0 Q k = specIndex0 Q k := by
  unfold index0 specIndex0
  induction Q generalizing k with
  | nil => rfl
  | cons q rest ih => simp only [List.foldl_cons, index0_step, ih]

theorem orMask_zero (qs : List ℕ) : orMask qs 0 = 0 := by
  induction qs with
  | nil => rfl
  | cons q rest ih => simp [orMask, ih]

theorem indexesList_get? (qs : List ℕ) :
    ∀ (acc : List ℕ) (i : ℕ), i < acc.length * 2 ^ qs.length →
      (indexesList qs acc).get? i = (acc.get? (i % acc.length)).map (· ||| orMask qs (i / acc.length)) := by
  induction qs with
  | nil =>
    intro acc i hi
    simp only [List.length_nil, pow_zero, Nat.mul_one] at hi
    simp [indexesList, orMask, Nat.mod_eq_of_lt hi, Nat.div_eq_of_lt hi]
  | cons q rest ih =>
    intro acc i hi
    have hL : 0 < acc.length := by
      rcases Nat.eq_zero_or_pos acc.length with h | h
      · rw [h] at hi; omega
      · exact h
    have hlen' : (acc ++ acc.map (· ||| 2 ^ q)).length = 2 * acc.length := by
      simp [List.length_append, List.length_map]; omega
    have hi' : i < (acc ++ acc.map (· ||| 2 ^ q)).length * 2 ^ rest.length := by
      rw [hlen']
      calc i < acc.length * 2 ^ (q :: rest).length := hi
        _ = 2 * acc.length * 2 ^ rest.length := by rw [List.length_cons, pow_succ]; ring
    have hstep : indexesList (q :: rest) acc = indexesList rest (acc ++ acc.map (· ||| 2 ^ q)) := rfl
    rw [hstep, ih _ i hi', hlen']
    have hj : i % (2 * acc.length) < 2 * acc.length := Nat.mod_lt _ (by omega)
    have hmod : i % (2 * acc.length) % acc.length = i % acc.length :=
      Nat.mod_mod_of_dvd i ⟨2, by ring⟩
    have hdivdiv : i / (2 * acc.length) = i / acc.length / 2 := by
      rw [Nat.div_div_eq_div_mul, Nat.mul_comm]
    have hjl : i % (2 * acc.length) / acc.length < 2 :=
      Nat.div_lt_of_lt_mul (by omega)
    have hkey : i / acc.length = 2 * (i / (2 * acc.length)) + i % (2 * acc.length) / acc.length := by
      conv_lhs => rw [← Nat.mod_add_div i (2 * acc.length)]
      rw [show 2 * acc.length * (i / (2 * acc.length)) =
            acc.length * (2 * (i / (2 * acc.length))) by ring]
      rw [Nat.add_mul_div_left _ _ hL]
      omega
    have hpar : i / acc.length % 2 = i % (2 * acc.length) / acc.length := by omega
    by_cases hcase : i % (2 * acc.length) < acc.length
    · have hget : (acc ++ acc.map (· ||| 2 ^ q)).get? (i % (2 * acc.length)) =
          acc.get? (i % (2 * acc.length)) := List.get?_append hcase
      have heq : i % (2 * acc.length) = i % acc.length := by
        rw [← hmod, Nat.mod_eq_of_lt hcase]
      have hpar0 : i / acc.length % 2 = 0 := by
        rw [hpar]; exact Nat.div_eq_of_lt hcase
      rw [hget, heq]
      have hmask : orMask rest (i / (2 * acc.length)) = orMask (q :: rest) (i / acc.length) := by
        rw [show orMask (q :: rest) (i / acc.length) =
              (if i / acc.length % 2 = 1 then 2 ^ q else 0) |||
                orMask rest (i / acc.length / 2) from rfl]
        rw [if_neg (by omega), ← hdivdiv]
        simp
      rw [hmask]
    · have hge : acc.length ≤ i % (2 * acc.length) := by omega
      have hget : (acc ++ acc.map (· ||| 2 ^ q)).get? (i % (2 * acc.length)) =
          (acc.map (· ||| 2 ^ q)).get? (i % (2 * acc.length) - acc.length) :=
        List.get?_append_right hge
      have h3 : i % (2 * acc.length) % acc.length = i % (2 * acc.length) - acc.length := by
        have h2 : i % (2 * acc.length) - acc.length < acc.length := by omega
        conv_lhs => rw [← Nat.sub_add_cancel hge]
        rw [Nat.add_mod_right]
        exact Nat.mod_eq_of_lt h2
      have heq : i % (2 * acc.length) - acc.length = i % acc.length := by
        rw [← hmod, h3]
      have hpar1 : i / acc.length % 2 = 1 := by
        have h1 : 1 ≤ i % (2 * acc.length) / acc.length := (Nat.one_le_div_iff hL).mpr hge
        omega
      rw [hget, List.get?_map, heq]
      cases hval : acc.get? (i % acc.length) with
      | none => rfl
      | some v =>
        simp only [Option.map_some']
        rw [show orMask (q :: rest) (i / acc.length) =
              (if i / acc.length % 2 = 1 then 2 ^ q else 0) |||
                orMask rest (i / acc.length / 2) from rfl]
        rw [if_pos hpar1, ← hdivdiv, ← Nat.lor_assoc]

/-- Sanity check from the source's own doc comment: with `k = 77` and
`qubits = qubits_sorted = [1, 4]`, `index0` gives 297 and `indexes` gives
`[297, 299, 313, 315]`. -/
theorem index0_source_example : index0 [1, 4] 77 = 297 ∧ indexes [1, 4] [1, 4] 77 = [297, 299, 313, 315] := by
  constructor <;> rfl

/-- C1: for sorted distinct `Q` below `N`, any permutation `Qu` of `Q`, any
counter `k < 2^(N-M)` and any `i < 2^M`, `index0 Q k` is the integer formed
by inserting a 0 bit into `k` at each position of `Q` in ascending order,
and the table `T = indexes Qu Q k` has `T[0] = index0 Q k` and
`T[i] = index0 Q k` with bit `Qu[j]` set (OR-ed in) for each `j` with bit
`j` of `i` set. -/
theorem c1_index0_indexes (N : ℕ) (Q Qu : List ℕ) (k i : ℕ)
    (hsorted : Q.Sorted (· < ·)) (hrange : ∀ q ∈ Q, q < N)
    (hperm : Qu.Perm Q) (hk : k < 2 ^ (N - Q.length)) (hi : i < 2 ^ Q.length) :
    index0 Q k = specIndex0 Q k ∧
    (indexes Qu Q k).get? 0 = some (index0 Q k) ∧
    (indexes Qu Q k).get? i = some (index0 Q k ||| orMask Qu i) := by
  refine ⟨index0_eq_specIndex0 Q k, ?_, ?_⟩
  · have h0 := indexesList_get? Qu [index0 Q k] 0 (by simp [Nat.pos_pow_of_pos])
    simpa [indexes, orMask_zero] using h0
  · have hlen : Qu.length = Q.length := hperm.length_eq
    have h := indexesList_get? Qu [index0 Q k] i (by simpa [hlen] using hi)
    simpa [indexes, Nat.mod_one, Nat.div_one] using h

/-- Witness for C1 at `N = 3`, `Q = [0, 2]`, `Qu = [2, 0]`, `k = 1`,
`i = 2`. -/
theorem c1_index0_indexes_witness :
    ([0, 2] : List ℕ).Sorted (· < ·) ∧ (∀ q ∈ ([0, 2] : List ℕ), q < 3) ∧
    ([2, 0] : List ℕ).Perm [0, 2] ∧ 1 < 2 ^ (3 - 2) ∧ 2 < 2 ^ 2 ∧
    (index0 [0, 2] 1 = specIndex0 [0, 2] 1 ∧
      (indexes [2, 0] [0, 2] 1).get? 0 = some (index0 [0, 2] 1) ∧
      (indexes [2, 0] [0, 2] 1).get? 2 = some (index0 [0, 2] 1 ||| orMask [2, 0] 2)) :=
  ⟨by decide, by decide, by decide, by decide, by decide,
    c1_index0_indexes 3 [0, 2] [2, 0] 1 2 (by decide) (by decide) (by decide)
      (by decide) (by decide)⟩

/-- C2 failing input: `num_qubits = 2`, `qubits = [1, 0]` (N = 2, so
`pos0 = 1`, `pos1 = 3`, one block with index table `T = [0, 2, 1, 3]`),
`mat = X = [0, 1, 1, 0]` (non-diagonal), state `[0, 1, 1, 0]`.  The source
kernel updates buffer positions 1 and 3 directly and yields `[0, 0, 1, 1]`,
changing the amplitude at position 1 even though `T[pos0] = 2` and
`T[pos1] = 3`; the claimed behaviour (update at `T[pos0]`, `T[pos1]`, all
other amplitudes unchanged) yields `[0, 1, 0, 1]`. -/
theorem c2_apply_mcu_failing :
    apply_mcu 2 [1, 0] [⟨0, 0⟩, ⟨1, 0⟩, ⟨1, 0⟩, ⟨0, 0⟩] [⟨0, 0⟩, ⟨1, 0⟩, ⟨1, 0⟩, ⟨0, 0⟩] =
      [⟨0, 0⟩, ⟨0, 0⟩, ⟨1, 0⟩, ⟨1, 0⟩] ∧
    apply_mcu_spec 2 [1, 0] [⟨0, 0⟩, ⟨1, 0⟩, ⟨1, 0⟩, ⟨0, 0⟩] [⟨0, 0⟩, ⟨1, 0⟩, ⟨1, 0⟩, ⟨0, 0⟩] =
      [⟨0, 0⟩, ⟨1, 0⟩, ⟨0, 0⟩, ⟨1, 0⟩] ∧
    apply_mcu 2 [1, 0] [⟨0, 0⟩, ⟨1, 0⟩, ⟨1, 0⟩, ⟨0, 0⟩] [⟨0, 0⟩, ⟨1, 0⟩, ⟨1, 0⟩, ⟨0, 0⟩] ≠
      apply_mcu_spec 2 [1, 0] [⟨0, 0⟩, ⟨1, 0⟩, ⟨1, 0⟩, ⟨0, 0⟩] [⟨0, 0⟩, ⟨1, 0⟩, ⟨1, 0⟩, ⟨0, 0⟩] := by
  refine ⟨by with_unfolding_all decide, by with_unfolding_all decide, by with_unfolding_all decide⟩

/-- C3 failing input: `num_qubits = 2`, a single 2-qubit gate with UNSORTED
register `[1, 0]` and matrix CX in column-major order (control = matrix bit
0 = qubit 1, target = matrix bit 1 = qubit 0), state `|01> = [0,1,0,0]`.
Sequential `apply_matrix([1,0], CX)` leaves the state fixed (the control
qubit 1 is 0), but the fusion path `apply_matrix_sequence` conjugates the
matrix into sorted order and then places the block with deltas taken from
the unsorted register, which applies the gate with its two qubits
exchanged and yields `[0,0,0,1]`. -/
theorem c3_apply_matrix_sequence_failing :
    apply_matrix_sequence 2 [[1, 0]]
        [[⟨1, 0⟩, ⟨0, 0⟩, ⟨0, 0⟩, ⟨0, 0⟩, ⟨0, 0⟩, ⟨0, 0⟩, ⟨0, 0⟩, ⟨1, 0⟩,
          ⟨0, 0⟩, ⟨0, 0⟩, ⟨1, 0⟩, ⟨0, 0⟩, ⟨0, 0⟩, ⟨1, 0⟩, ⟨0, 0⟩, ⟨0, 0⟩]]
        [⟨0, 0⟩, ⟨1, 0⟩, ⟨0, 0⟩, ⟨0, 0⟩] =
      Except.ok [⟨0, 0⟩, ⟨0, 0⟩, ⟨0, 0⟩, ⟨1, 0⟩] ∧
    apply_matrix 2 [1, 0]
        [⟨1, 0⟩, ⟨0, 0⟩, ⟨0, 0⟩, ⟨0, 0⟩, ⟨0, 0⟩, ⟨0, 0⟩, ⟨0, 0⟩, ⟨1, 0⟩,
          ⟨0, 0⟩, ⟨0, 0⟩, ⟨1, 0⟩, ⟨0, 0⟩, ⟨0, 0⟩, ⟨1, 0⟩, ⟨0, 0⟩, ⟨0, 0⟩]
        [⟨0, 0⟩, ⟨1, 0⟩, ⟨0, 0⟩, ⟨0, 0⟩] =
      [⟨0, 0⟩, ⟨1, 0⟩, ⟨0, 0⟩, ⟨0, 0⟩] ∧
    apply_matrix_sequence 2 [[1, 0]]
        [[⟨1, 0⟩, ⟨0, 0⟩, ⟨0, 0⟩, ⟨0, 0⟩, ⟨0, 0⟩, ⟨0, 0⟩, ⟨0, 0⟩, ⟨1, 0⟩,
          ⟨0, 0⟩, ⟨0, 0⟩, ⟨1, 0⟩, ⟨0, 0⟩, ⟨0, 0⟩, ⟨1, 0⟩, ⟨0, 0⟩, ⟨0, 0⟩]]
        [⟨0, 0⟩, ⟨1, 0⟩, ⟨0, 0⟩, ⟨0, 0⟩] ≠
      Except.ok (apply_matrix 2 [1, 0]
        [⟨1, 0⟩, ⟨0, 0⟩, ⟨0, 0⟩, ⟨0, 0⟩, ⟨0, 0⟩, ⟨0, 0⟩, ⟨0, 0⟩, ⟨1, 0⟩,
          ⟨0, 0⟩, ⟨0, 0⟩, ⟨1, 0⟩, ⟨0, 0⟩, ⟨0, 0⟩, ⟨1, 0⟩, ⟨0, 0⟩, ⟨0, 0⟩]
        [⟨0, 0⟩, ⟨1, 0⟩, ⟨0, 0⟩, ⟨0, 0⟩]) := by
  refine ⟨by with_unfolding_all decide, by with_unfolding_all decide,
    by with_unfolding_all decide⟩

theorem pref_succ (st : List CC) (m : ℕ) :
    pref st (m + 1) = pref st m + ((st.get! m).conj * st.get! m).re := by
  simp [pref, List.range_succ]

theorem sampleLoop_spec (st : List CC) (rnd : ℚ) :
    ∀ (fuel sample : ℕ),
      sample ≤ sampleLoop st rnd (pref st sample) sample fuel ∧
      sampleLoop st rnd (pref st sample) sample fuel ≤ sample + fuel ∧
      (∀ j, sample ≤ j → j < sampleLoop st rnd (pref st sample) sample fuel →
        ¬ rnd < pref st (j + 1)) ∧
      (sampleLoop st rnd (pref st sample) sample fuel < sample + fuel →
        rnd < pref st (sampleLoop st rnd (pref st sample) sample fuel + 1)) := by
  intro fuel
  induction fuel with
  | zero =>
    intro sample
    refine ⟨le_refl _, by simp [sampleLoop], ?_, ?_⟩
    · intro j h1 h2
      simp [sampleLoop] at h2
      omega
    · intro h
      simp [sampleLoop] at h
  | succ fuel ih =>
    intro sample
    have hunfold : sampleLoop st rnd (pref st sample) sample (fuel + 1) =
        if rnd < pref st sample + ((st.get! sample).conj * st.get! sample).re then sample
        else sampleLoop st rnd
          (pref st sample + ((st.get! sample).conj * st.get! sample).re) (sample + 1) fuel := rfl
    by_cases hbr : rnd < pref st sample + ((st.get! sample).conj * st.get! sample).re
    · rw [hunfold, if_pos hbr]
      refine ⟨le_refl _, by omega, ?_, ?_⟩
      · intro j h1 h2; omega
      · intro _; rw [pref_succ]; exact hbr
    · rw [hunfold, if_neg hbr]
      have hp : pref st sample + ((st.get! sample).conj * st.get! sample).re =
          pref st (sample + 1) := (pref_succ st sample).symm
      rw [hp]
      obtain ⟨ih1, ih2, ih3, ih4⟩ := ih (sample + 1)
      refine ⟨by omega, by omega, ?_, ?_⟩
      · intro j h1 h2
        rcases Nat.eq_or_lt_of_le h1 with h | h
        · subst h
          rw [← hp]
          exact hbr
        · exact ih3 j h h2
      · intro h
        exact ih4 (by omega)

theorem sampleLoop_eq_specSampleOutcome (st : List CC) (rnd : ℚ) (E : ℕ) (hE : 0 < E) :
    sampleLoop st rnd 0 0 (E - 1) = specSampleOutcome st E rnd := by
  have hp0 : (0 : ℚ) = pref st 0 := by simp [pref]
  rw [hp0]
  obtain ⟨h1, h2, h3, h4⟩ := sampleLoop_spec st rnd (E - 1) 0
  simp only [Nat.zero_add] at h2 h4
  rw [specSampleOutcome]
  split
  · rename_i hex
    have hfind := Nat.find_spec hex
    by_contra hne
    rcases Nat.lt_or_ge (sampleLoop st rnd (pref st 0) 0 (E - 1)) (Nat.find hex) with h | h
    · have hlt : sampleLoop st rnd (pref st 0) 0 (E - 1) < E - 1 := by omega
      have := Nat.find_min hex h
      exact this ⟨hlt, h4 hlt⟩
    · have hlt : Nat.find hex < sampleLoop st rnd (pref st 0) 0 (E - 1) := by omega
      exact h3 (Nat.find hex) (Nat.zero_le _) hlt hfind.2
  · rename_i hex
    push_neg at hex
    by_contra hne
    have hlt : sampleLoop st rnd (pref st 0) 0 (E - 1) < E - 1 := by omega
    exact absurd (h4 hlt) (not_lt.mpr (hex _ hlt))

/-- C4: in the small-state regime (`2^N < 2^sample_measure_index_size`),
`sample_measure` returns one outcome per input value in input order; the
outcome for a shot with random value `r` is the smallest `j < 2^N - 1` with
`r < sum of |a[i]|^2 over i <= j`, and `2^N - 1` when no such `j` exists;
every outcome is below `2^N`; and the result is a function of the state and
the input list alone. -/
theorem c4_sample_measure_small (nq idxSize : ℕ) (st : List CC) (rnds : List ℚ)
    (s : ℕ) (r : ℚ)
    (hst : st.length = 2 ^ nq) (hsize : 2 ^ nq < 2 ^ idxSize)
    (hrange : ∀ x ∈ rnds, 0 ≤ x ∧ x < 1) (hr : rnds.get? s = some r) :
    (sample_measure nq idxSize st rnds).length = rnds.length ∧
    (sample_measure nq idxSize st rnds).get? s = some (specSampleOutcome st (2 ^ nq) r) ∧
    specSampleOutcome st (2 ^ nq) r < 2 ^ nq ∧
    ∀ st2 rnds2, st2 = st → rnds2 = rnds →
      sample_measure nq idxSize st2 rnds2 = sample_measure nq idxSize st rnds := by
  have hE : 0 < 2 ^ nq := Nat.pos_pow_of_pos nq (by norm_num)
  have hunfold : sample_measure nq idxSize st rnds =
      rnds.map (fun rnd => sampleLoop st rnd 0 0 (2 ^ nq - 1)) := by
    simp only [sample_measure]
    rw [if_pos hsize]
  refine ⟨by rw [hunfold, List.length_map], ?_, ?_, ?_⟩
  · rw [hunfold, List.get?_map, hr, Option.map_some',
      sampleLoop_eq_specSampleOutcome st r _ hE]
  · rw [specSampleOutcome]
    split
    · rename_i hex
      have := (Nat.find_spec hex).1
      omega
    · omega
  · intro st2 rnds2 h1 h2
    rw [h1, h2]

/-- Witness for C4 at one qubit, index size 2, state `[1, 0]`, a single
shot with random value 0. -/
theorem c4_sample_measure_small_witness :
    ([⟨1, 0⟩, ⟨0, 0⟩] : List CC).length = 2 ^ 1 ∧ 2 ^ 1 < 2 ^ 2 ∧
    (∀ x ∈ ([0] : List ℚ), 0 ≤ x ∧ x < 1) ∧ ([0] : List ℚ).get? 0 = some 0 ∧
    ((sample_measure 1 2 [⟨1, 0⟩, ⟨0, 0⟩] [0]).length = ([0] : List ℚ).length ∧
      (sample_measure 1 2 [⟨1, 0⟩, ⟨0, 0⟩] [0]).get? 0 =
        some (specSampleOutcome [⟨1, 0⟩, ⟨0, 0⟩] (2 ^ 1) 0) ∧
      specSampleOutcome [⟨1, 0⟩, ⟨0, 0⟩] (2 ^ 1) 0 < 2 ^ 1 ∧
      ∀ st2 rnds2, st2 = [⟨1, 0⟩, ⟨0, 0⟩] → rnds2 = [0] →
        sample_measure 1 2 st2 rnds2 = sample_measure 1 2 [⟨1, 0⟩, ⟨0, 0⟩] [0]) :=
  ⟨rfl, by decide,
    fun x hx => by
      rw [List.mem_singleton] at hx
      subst hx
      exact ⟨le_refl 0, zero_lt_one⟩,
    rfl,
    c4_sample_measure_small 1 2 [⟨1, 0⟩, ⟨0, 0⟩] [0] 0 0 rfl (by decide)
      (fun x hx => by
        rw [List.mem_singleton] at hx
        subst hx
        exact ⟨le_refl 0, zero_lt_one⟩)
      rfl⟩

/-- C5: for every object, every gate sequence and either build,
`checkpoint(); gates; revert(false)` restores the state buffer bit-exactly
to its value at the moment of `checkpoint()` and releases the checkpoint
buffer, while `revert(true)` performs the same restore but keeps the
checkpoint buffer. -/
theorem c5_checkpoint_revert (qv : QV) (gs : List Gate) (debug : Bool) :
    revertOp debug false (applyGates gs (checkpointOp qv)) =
      RevertResult.ok { applyGates gs (checkpointOp qv) with
        data := qv.data, checkpoint_ := none } ∧
    revertOp debug true (applyGates gs (checkpointOp qv)) =
      RevertResult.ok { applyGates gs (checkpointOp qv) with
        data := qv.data, checkpoint_ := some qv.data } := by
  constructor <;> rfl

/-- C6 counterexample: in a build without `DEBUG` (the check in the source
is inside `#ifdef DEBUG`), calling `revert` on an object with no checkpoint
buffer does not raise the recoverable error the claim requires: it
dereferences the null checkpoint pointer. -/
theorem c6_counterexample :
    revertOp false true ⟨0, [⟨1, 0⟩], none, 1, 14, 10, 0⟩ = RevertResult.crash ∧
    inner_product false ⟨0, [⟨1, 0⟩], none, 1, 14, 10, 0⟩ = ValResult.crash ∧
    revertOp false true ⟨0, [⟨1, 0⟩], none, 1, 14, 10, 0⟩ ≠
      RevertResult.err checkpointErrMsg ⟨0, [⟨1, 0⟩], none, 1, 14, 10, 0⟩ := by
  refine ⟨rfl, rfl, by decide⟩

/-- C6 amended: in a build with `DEBUG` defined, `revert(keep)` and
`inner_product()` called with no checkpoint buffer raise the recoverable
message of `check_checkpoint()` on entry and leave the object untouched
(the error value carries the unmodified object; `inner_product` is const). -/
theorem c6_checkpoint_guard (qv : QV) (keep : Bool) (h : qv.checkpoint_ = none) :
    revertOp true keep qv = RevertResult.err checkpointErrMsg qv ∧
    inner_product true qv = ValResult.err checkpointErrMsg := by
  constructor
  · rw [revertOp, h]
    rfl
  · rw [inner_product, h]
    rfl

/-- Witness for C6 amended at a concrete one-amplitude object with no
checkpoint. -/
theorem c6_checkpoint_guard_witness :
    (QV.checkpoint_ ⟨0, [⟨1, 0⟩], none, 1, 14, 10, 0⟩ = none) ∧
    (revertOp true false ⟨0, [⟨1, 0⟩], none, 1, 14, 10, 0⟩ =
      RevertResult.err checkpointErrMsg ⟨0, [⟨1, 0⟩], none, 1, 14, 10, 0⟩ ∧
    inner_product true ⟨0, [⟨1, 0⟩], none, 1, 14, 10, 0⟩ =
      ValResult.err checkpointErrMsg) :=
  ⟨rfl, c6_checkpoint_guard ⟨0, [⟨1, 0⟩], none, 1, 14, 10, 0⟩ false rfl⟩

/-- C7: `json()` emits a `2^N`-entry array whose `j`-th entry is
`[re a[j], im a[j]]`; with a positive chop threshold each component of
absolute value at most the threshold is emitted as exactly 0,
independently per component; with threshold 0 everything is unchanged. -/
theorem c7_json (qv : QV) (j : ℕ)
    (hlen : qv.data.length = 2 ^ qv.num_qubits) (hj : j < 2 ^ qv.num_qubits) :
    (jsonOut qv).length = 2 ^ qv.num_qubits ∧
    (0 < qv.json_chop_threshold →
      (jsonOut qv).get? j = some
        ((if |(qv.data.get! j).re| ≤ qv.json_chop_threshold then 0 else (qv.data.get! j).re),
         (if |(qv.data.get! j).im| ≤ qv.json_chop_threshold then 0 else (qv.data.get! j).im))) ∧
    (qv.json_chop_threshold = 0 →
      (jsonOut qv).get? j = some ((qv.data.get! j).re, (qv.data.get! j).im)) := by
  refine ⟨?_, ?_, ?_⟩
  · rw [jsonOut]
    split <;> simp [List.length_map, List.length_range]
  · intro hpos
    rw [jsonOut, if_pos hpos, List.get?_map, List.get?_range hj, Option.map_some']
    congr 2
    · rcases le_or_lt |(qv.data.get! j).re| qv.json_chop_threshold with h | h
      · rw [if_neg (not_lt.mpr h), if_pos h]
      · rw [if_pos h, if_neg (not_le.mpr h)]
    · rcases le_or_lt |(qv.data.get! j).im| qv.json_chop_threshold with h | h
      · rw [if_neg (not_lt.mpr h), if_pos h]
      · rw [if_pos h, if_neg (not_le.mpr h)]
  · intro hzero
    rw [jsonOut, if_neg (by rw [hzero]; exact lt_irrefl 0),
      List.get?_map, List.get?_range hj, Option.map_some']

/-- Witness for C7 at a single-amplitude object with threshold 0. -/
theorem c7_json_witness :
    (QV.data ⟨0, [⟨1, 0⟩], none, 1, 14, 10, 0⟩).length =
      2 ^ QV.num_qubits ⟨0, [⟨1, 0⟩], none, 1, 14, 10, 0⟩ ∧
    0 < 2 ^ QV.num_qubits ⟨0, [⟨1, 0⟩], none, 1, 14, 10, 0⟩ ∧
    ((jsonOut ⟨0, [⟨1, 0⟩], none, 1, 14, 10, 0⟩).length =
      2 ^ QV.num_qubits ⟨0, [⟨1, 0⟩], none, 1, 14, 10, 0⟩ ∧
    (0 < QV.json_chop_threshold ⟨0, [⟨1, 0⟩], none, 1, 14, 10, 0⟩ →
      (jsonOut ⟨0, [⟨1, 0⟩], none, 1, 14, 10, 0⟩).get? 0 = some
        ((if |(CC.re ((QV.data ⟨0, [⟨1, 0⟩], none, 1, 14, 10, 0⟩).get! 0))| ≤
            QV.json_chop_threshold ⟨0, [⟨1, 0⟩], none, 1, 14, 10, 0⟩ then 0
          else CC.re ((QV.data ⟨0, [⟨1, 0⟩], none, 1, 14, 10, 0⟩).get! 0)),
         (if |(CC.im ((QV.data ⟨0, [⟨1, 0⟩], none, 1, 14, 10, 0⟩).get! 0))| ≤
            QV.json_chop_threshold ⟨0, [⟨1, 0⟩], none, 1, 14, 10, 0⟩ then 0
          else CC.im ((QV.data ⟨0, [⟨1, 0⟩], none, 1, 14, 10, 0⟩).get! 0)))) ∧
    (QV.json_chop_threshold ⟨0, [⟨1, 0⟩], none, 1, 14, 10, 0⟩ = 0 →
      (jsonOut ⟨0, [⟨1, 0⟩], none, 1, 14, 10, 0⟩).get? 0 = some
        (CC.re ((QV.data ⟨0, [⟨1, 0⟩], none, 1, 14, 10, 0⟩).get! 0),
         CC.im ((QV.data ⟨0, [⟨1, 0⟩], none, 1, 14, 10, 0⟩).get! 0)))) :=
  ⟨rfl, by decide, c7_json ⟨0, [⟨1, 0⟩], none, 1, 14, 10, 0⟩ 0 rfl (by decide)⟩

/-- C8: the `DEBUG` bounds check of `operator[]` raises exactly when the
index is strictly greater than `data_size_ = 2^N`, so the first
out-of-range index `2^N` itself passes without an error. -/
theorem c8_element_access_check (qv : QV) (i : ℕ) :
    (elementAccessCheck qv i = true ↔ 2 ^ qv.num_qubits < i) ∧
    elementAccessCheck qv (2 ^ qv.num_qubits) = false := by
  constructor
  · exact decide_eq_true_iff
  · simp [elementAccessCheck]

/-- C9: `apply_matrix_sequence` with an empty matrix list returns
immediately: no error and every amplitude unchanged, for every register
argument. -/
theorem c9_empty_mats (nq : ℕ) (regs : List (List ℕ)) (st : List CC) :
    apply_matrix_sequence nq regs [] st = Except.ok st := rfl

/-- C10: `set_omp_threads(n)` and `set_omp_threshold(n)` store `n` into
their configuration field exactly when `n > 0`, leave it unchanged
otherwise, never error, and never touch the other field. -/
theorem c10_set_omp (qv : QV) (n : ℤ) :
    ((set_omp_threads qv n).omp_threads = if 0 < n then n.toNat else qv.omp_threads) ∧
    (set_omp_threads qv n).omp_threshold = qv.omp_threshold ∧
    ((set_omp_threshold qv n).omp_threshold = if 0 < n then n.toNat else qv.omp_threshold) ∧
    (set_omp_threshold qv n).omp_threads = qv.omp_threads := by
  refine ⟨?_, ?_, ?_, ?_⟩ <;> (
    simp only [set_omp_threads, set_omp_threshold]
    split <;> rfl)
